import Mathlib

/-!
Verification development for the dex-spread-bot arbitrage scanner
(src/bot.py). The numeric computations of the source, written over Python
floats, are embedded over the exact rationals. Venue identifiers are the
two configured venues; the pairing and scanning machinery is stated over an
arbitrary venue type with decidable equality, instantiated at the concrete
configuration for concrete evaluations.
-/

namespace DexSpreadBot

/-- Venue identifiers, the keys of the DEXS and FEES dictionaries in
src/bot.py (lines 26-37). -/
inductive Dex where
  | extended
  | nado
deriving DecidableEq

/-- The dictionary returned by calc_spread (src/bot.py lines 76-83):
cheap and expensive venue-price pairs, gross profit, gross percentage,
fee cost and net profit. -/
structure Spread (V : Type) where
  cheap : V × ℚ
  expensive : V × ℚ
  gross : ℚ
  gross_pct : ℚ
  fees : ℚ
  net : ℚ
deriving DecidableEq

/-- Straight-line body of calc_spread after the canonicalizing swap
(src/bot.py lines 71-83): units = NOTIONAL / p1, gross = units * (p2 - p1),
fees = 2 * FEES[dex1] * NOTIONAL + 2 * FEES[dex2] * NOTIONAL,
net = gross - fees, gross_pct = (p2 - p1) / p1 * 100. -/
def spreadOf {V : Type} (FEES : V → ℚ) (NOTIONAL : ℚ) (p1 p2 : ℚ)
    (dex1 dex2 : V) : Spread V :=
  let units := NOTIONAL / p1
  let gross := units * (p2 - p1)
  let fees := 2 * FEES dex1 * NOTIONAL + 2 * FEES dex2 * NOTIONAL
  let net := gross - fees
  let gross_pct := (p2 - p1) / p1 * 100
  ⟨(dex1, p1), (dex2, p2), gross, gross_pct, fees, net⟩

/-- Embedding of calc_spread (src/bot.py lines 66-83). A missing price is
none; the Python guard `if not p1 or not p2: return None` rejects a missing
price and a zero price (Python falsiness), and nothing else. When p1 > p2
the prices and venues are swapped so that the lower price takes the cheap
role. The global FEES and NOTIONAL read by the Python function are passed
as parameters. -/
def calc_spread {V : Type} (FEES : V → ℚ) (NOTIONAL : ℚ) (p1 p2 : Option ℚ)
    (dex1 dex2 : V) : Option (Spread V) :=
  match p1, p2 with
  | some q1, some q2 =>
    if q1 = 0 ∨ q2 = 0 then none
    else if q1 > q2 then some (spreadOf FEES NOTIONAL q2 q1 dex2 dex1)
    else some (spreadOf FEES NOTIONAL q1 q2 dex1 dex2)
  | _, _ => none

/-- The FEES dictionary of src/bot.py line 37. -/
def FEES : Dex → ℚ := fun d =>
  match d with
  | Dex.extended => 0.00025
  | Dex.nado => 0.00035

/-- The NOTIONAL constant of src/bot.py line 38. -/
def NOTIONAL : ℚ := 10000

/-- The MIN_PROFIT default threshold of src/bot.py line 40. -/
def MIN_PROFIT : ℚ := 1

/-- One ordered pair step of the scan loop body (src/bot.py lines 133-134):
the pair is skipped when the two venues coincide, otherwise calc_spread is
applied to the two looked-up prices. -/
def pairSpread {V : Type} [DecidableEq V] (FEES : V → ℚ) (NOTIONAL : ℚ)
    (a b : V × ℚ) : Option (Spread V) :=
  if a.1 = b.1 then none
  else calc_spread FEES NOTIONAL (some a.2) (some b.2) a.1 b.1

/-- One ordered pair step of the scan loop with the inline threshold test
of src/bot.py line 135: `if spread and spread['net'] >= threshold`. -/
def pairSpreadTh {V : Type} [DecidableEq V] (FEES : V → ℚ)
    (NOTIONAL threshold : ℚ) (a b : V × ℚ) : Option (Spread V) :=
  match pairSpread FEES NOTIONAL a b with
  | some s => if threshold ≤ s.net then some s else none
  | none => none

/-- Candidate Spreads of one snapshot: the double loop over ordered venue
pairs of src/bot.py lines 131-134 without the threshold test, iterating
the price_dict association list in order. -/
def computeSpreads {V : Type} [DecidableEq V] (FEES : V → ℚ) (NOTIONAL : ℚ)
    (pd : List (V × ℚ)) : List (Spread V) :=
  pd.flatMap fun a => pd.filterMap fun b => pairSpread FEES NOTIONAL a b

/-- The spreads list built for one coin by scan_handler (src/bot.py lines
130-137): the double loop over ordered venue pairs, keeping the Spreads
whose net meets the caller threshold. -/
def spreadsFor {V : Type} [DecidableEq V] (FEES : V → ℚ)
    (NOTIONAL threshold : ℚ) (pd : List (V × ℚ)) : List (Spread V) :=
  pd.flatMap fun a => pd.filterMap fun b =>
    pairSpreadTh FEES NOTIONAL threshold a b

/-- The all_spreads accumulation of scan_handler (src/bot.py lines 119 and
138) over the per-coin snapshots of one scan. -/
def all_spreads {V : Type} [DecidableEq V] (FEES : V → ℚ)
    (NOTIONAL threshold : ℚ) (snaps : List (List (V × ℚ))) :
    List (Spread V) :=
  snaps.flatMap fun pd => spreadsFor FEES NOTIONAL threshold pd

/-- The threshold-free candidate set across all snapshots, for stating the
filter relation of the scan. -/
def all_candidates {V : Type} [DecidableEq V] (FEES : V → ℚ) (NOTIONAL : ℚ)
    (snaps : List (List (V × ℚ))) : List (Spread V) :=
  snaps.flatMap fun pd => computeSpreads FEES NOTIONAL pd

/-- Python max with a key function, as used in src/bot.py line 143: scan
the list left to right keeping the current best, replacing it only when a
strictly larger net is found, so the first maximal element wins ties. -/
def pythonMax {V : Type} (best : Spread V) : List (Spread V) → Spread V
  | [] => best
  | x :: xs => if best.net < x.net then pythonMax x xs else pythonMax best xs

/-- Result of one scan as reported by scan_handler (src/bot.py lines
142-168): either the best Spread together with the deal id
len(all_spreads), or the no-qualifying-spread report. -/
inductive ScanOutcome (V : Type) where
  | best (s : Spread V) (dealId : ℕ)
  | noSpread
deriving DecidableEq

/-- The selection stage of scan_handler (src/bot.py lines 142-168): when
all_spreads is nonempty the best Spread is max(all_spreads, key net) and
the deal id is len(all_spreads); otherwise the no-spread report. -/
def scan_handler {V : Type} [DecidableEq V] (FEES : V → ℚ)
    (NOTIONAL threshold : ℚ) (snaps : List (List (V × ℚ))) : ScanOutcome V :=
  match all_spreads FEES NOTIONAL threshold snaps with
  | [] => ScanOutcome.noSpread
  | a :: rest => ScanOutcome.best (pythonMax a rest) (rest.length + 1)

/-- The canonical Spread of the sample two-venue snapshot with prices 100
on extended and 101 on nado, used by the concrete evaluations below. -/
def sampleSpread : Spread Dex :=
  spreadOf FEES NOTIONAL 100 101 Dex.extended Dex.nado

/-- Outcome of one venue request as seen by fetch_price (src/bot.py lines
53-64): an HTTP response with its status code and the optionally parsed
price (none models a payload-parse failure, which raises inside the try
block), or a raised network error or timeout. -/
inductive FetchOutcome where
  | response (status : ℕ) (parsed : Option ℚ)
  | netError
deriving DecidableEq

/-- Embedding of fetch_price (src/bot.py lines 53-64): a non-200 status
returns no price; a parse failure or any raised exception is caught and
returns no price; only a 200 response with a parsed price yields a
Quote. -/
def fetch_price (o : FetchOutcome) : Option ℚ :=
  match o with
  | FetchOutcome.response status parsed => if status ≠ 200 then none else parsed
  | FetchOutcome.netError => none

/-- The venue registry iteration order of DEXS (src/bot.py lines 26-35). -/
def DEXS : List Dex := [Dex.extended, Dex.nado]

/-- Embedding of fetch_coin_prices (src/bot.py lines 44-51): one request
per venue, gathered without propagating failures; env gives each venue
request its outcome for this cycle. -/
def fetch_coin_prices (env : Dex → FetchOutcome) : List (Dex × Option ℚ) :=
  DEXS.map fun d => (d, fetch_price (env d))

/-- The price_dict comprehension of src/bot.py line 124: keep the venues
whose fetch produced a price. -/
def price_dict (results : List (Dex × Option ℚ)) : List (Dex × ℚ) :=
  results.filterMap fun x => x.2.map fun p => (x.1, p)

/-- Sample fetch-cycle environment: the extended venue responds 200 with
price 100 while the nado venue raises a network error. -/
def envSample : Dex → FetchOutcome := fun d =>
  match d with
  | Dex.extended => FetchOutcome.response 200 (some 100)
  | Dex.nado => FetchOutcome.netError

/-- Python str.split with a single-character separator, on the character
list of the string; used for callback.data.split in src/bot.py line
196. -/
def pySplit (sep : Char) : List Char → List (List Char)
  | [] => [[]]
  | c :: rest =>
    let r := pySplit sep rest
    if c = sep then [] :: r
    else
      match r with
      | [] => [[c]]
      | h :: t => (c :: h) :: t

/-- Value of a nonempty string of ASCII decimal digits; none when the
string is empty or holds any other character. Used only by the concrete
instantiation below, never to characterize the Python built-in int(). -/
def parseDigits (l : List Char) : Option ℕ :=
  if l ≠ [] ∧ l.all Char.isDigit then
    some (l.foldl (fun n c => 10 * n + (c.toNat - 48)) 0)
  else none

/-- A sound restriction of the Python built-in int() on a string: an
optional sign followed by ASCII decimal digits. Every string this function
accepts is accepted by int() with the same value, so it is a valid stand-in
for int() on concrete inputs such as the digit strings 0 and 5 used below.
Strings it rejects may still be accepted by the real builtin (for example
whitespace-padded, underscore-separated or non-ASCII decimal-digit
strings), so this function is used only to instantiate concrete
evaluations and never to characterize which submissions int() rejects. -/
def parseIntPy (l : List Char) : Option ℤ :=
  match l with
  | '-' :: rest => (parseDigits rest).map fun n => -(n : ℤ)
  | '+' :: rest => (parseDigits rest).map fun n => (n : ℤ)
  | _ => (parseDigits l).map fun n => (n : ℤ)

/-- Embedding of profit_callback (src/bot.py lines 194-208) acting on the
user_settings store (line 22), modeled as the map from user id to the
optionally stored min_profit value. The handler runs only on callback data
matching the F.data filter startswith profit_. The Python built-in int(),
applied to the second split component, is a language builtin and enters
the embedding as the parameter intParse: intParse s = some v when int(s)
returns v and intParse s = none when int(s) raises ValueError (the raise
aborts the handler on its first line, before any mutation, leaving the
store unchanged, as does an IndexError from the [1] subscript). A
successfully parsed integer is stored verbatim with no positivity
check. -/
def profit_callback (intParse : List Char → Option ℤ)
    (settings : ℕ → Option ℤ) (uid : ℕ) (data : List Char) :
    ℕ → Option ℤ :=
  if "profit_".data.isPrefixOf data then
    match (pySplit '_' data)[1]? with
    | some sfx =>
      match intParse sfx with
      | some v => fun u => if u = uid then some v else settings u
      | none => settings
    | none => settings
  else settings

/-- Helper: calc_spread returns none exactly when a price is missing or
zero; every other pair of inputs produces a Spread. -/
lemma calc_spread_eq_none_iff {V : Type} (FEESf : V → ℚ) (N : ℚ)
    (p1 p2 : Option ℚ) (d1 d2 : V) :
    calc_spread FEESf N p1 p2 d1 d2 = none ↔
      p1 = none ∨ p2 = none ∨ p1 = some 0 ∨ p2 = some 0 := by
  cases p1 with
  | none => simp [calc_spread]
  | some q1 =>
    cases p2 with
    | none => simp [calc_spread]
    | some q2 =>
      by_cases h : q1 = 0 ∨ q2 = 0
      · simp only [calc_spread, if_pos h]
        simpa using h
      · by_cases hgt : q1 > q2 <;>
          simp only [calc_spread, if_neg h, if_pos, if_neg, hgt, ite_true,
            ite_false, reduceCtorEq, false_iff] <;>
          simpa using h

/-- C2: for positive prices p1 ≤ p2, fee rates f1 (cheap leg) and f2
(expensive leg), and notional N > 0, calc_spread yields a Spread with
cheap.price = p1, expensive.price = p2, gross = (N/p1)(p2-p1),
fees = 2 f1 N + 2 f2 N and net = N(p2-p1)/p1 - 2N(f1+f2), with
net = gross - fees, in exact arithmetic. -/
theorem calc_spread_two_venue_exact {V : Type} (FEESf : V → ℚ) (N : ℚ)
    (p1 p2 : ℚ) (d1 d2 : V) (hp1 : 0 < p1) (hle : p1 ≤ p2) (_hN : 0 < N) :
    calc_spread FEESf N (some p1) (some p2) d1 d2 =
      some ⟨(d1, p1), (d2, p2),
        N / p1 * (p2 - p1),
        (p2 - p1) / p1 * 100,
        2 * FEESf d1 * N + 2 * FEESf d2 * N,
        N * (p2 - p1) / p1 - 2 * N * (FEESf d1 + FEESf d2)⟩ ∧
    ∀ s : Spread V, calc_spread FEESf N (some p1) (some p2) d1 d2 = some s →
      s.net = s.gross - s.fees := by
  have h0 : ¬ (p1 = 0 ∨ p2 = 0) := by
    push_neg
    exact ⟨ne_of_gt hp1, ne_of_gt (lt_of_lt_of_le hp1 hle)⟩
  have hgt : ¬ p1 > p2 := not_lt.mpr hle
  have hmain : calc_spread FEESf N (some p1) (some p2) d1 d2 =
      some (spreadOf FEESf N p1 p2 d1 d2) := by
    simp only [calc_spread, if_neg h0, if_neg hgt]
  constructor
  · rw [hmain]
    simp only [spreadOf, Option.some.injEq, Spread.mk.injEq,
      eq_self_iff_true, true_and, and_true]
    ring
  · intro s hs
    rw [hmain, Option.some.injEq] at hs
    subst hs
    simp [spreadOf]

/-- C2 witness: the theorem instantiated at prices 100000 and 100080 on the
two configured venues with the configured notional. -/
theorem calc_spread_two_venue_exact_witness :
    calc_spread FEES NOTIONAL (some 100000) (some 100080)
      Dex.extended Dex.nado =
      some ⟨(Dex.extended, 100000), (Dex.nado, 100080),
        NOTIONAL / 100000 * (100080 - 100000),
        (100080 - 100000) / 100000 * 100,
        2 * FEES Dex.extended * NOTIONAL + 2 * FEES Dex.nado * NOTIONAL,
        NOTIONAL * (100080 - 100000) / 100000 -
          2 * NOTIONAL * (FEES Dex.extended + FEES Dex.nado)⟩ :=
  (calc_spread_two_venue_exact FEES NOTIONAL 100000 100080
    Dex.extended Dex.nado (by norm_num) (by norm_num)
    (by norm_num [NOTIONAL])).1

/-- C3 counterexample: a negative price is not rejected by the guard
`if not p1 or not p2` of calc_spread — the pair (-100, 50) produces a
Spread even though -100 is a non-positive price. -/
theorem calc_spread_negative_price_cex :
    (calc_spread FEES NOTIONAL (some (-100)) (some 50)
      Dex.extended Dex.nado).isSome = true ∧ (-100 : ℚ) < 0 := by
  constructor
  · norm_num [calc_spread]
  · norm_num

/-- C3 amended: a missing price or a zero price excludes the pair (no
Spread is produced), and these are the only exclusions — a negative price
is treated as valid by the code and does produce a Spread. -/
theorem calc_spread_excludes_missing_and_zero_only {V : Type}
    (FEESf : V → ℚ) (N : ℚ) (p1 p2 : Option ℚ) (d1 d2 : V) :
    calc_spread FEESf N p1 p2 d1 d2 = none ↔
      p1 = none ∨ p2 = none ∨ p1 = some 0 ∨ p2 = some 0 :=
  calc_spread_eq_none_iff FEESf N p1 p2 d1 d2

/-- C3 amended witness: a missing first price at concrete inputs yields no
Spread. -/
theorem calc_spread_excludes_missing_and_zero_only_witness :
    calc_spread FEES NOTIONAL none (some 50) Dex.extended Dex.nado = none :=
  (calc_spread_excludes_missing_and_zero_only FEES NOTIONAL none (some 50)
    Dex.extended Dex.nado).mpr (Or.inl rfl)

/-- C7: every Spread constructed by calc_spread has cheap.price less than
or equal to expensive.price; the lower input price takes the cheap role and
the higher the expensive role, with venues swapped along with prices when
the first argument is the higher one. -/
theorem calc_spread_cheap_le_expensive {V : Type} (FEESf : V → ℚ) (N : ℚ)
    (p1 p2 : Option ℚ) (d1 d2 : V) (s : Spread V)
    (h : calc_spread FEESf N p1 p2 d1 d2 = some s) :
    s.cheap.2 ≤ s.expensive.2 ∧
      ∀ q1 q2 : ℚ, p1 = some q1 → p2 = some q2 →
        s.cheap.2 = min q1 q2 ∧ s.expensive.2 = max q1 q2 ∧
        (q1 ≤ q2 → s.cheap.1 = d1 ∧ s.expensive.1 = d2) ∧
        (q2 < q1 → s.cheap.1 = d2 ∧ s.expensive.1 = d1) := by
  cases p1 with
  | none => simp [calc_spread] at h
  | some q1 =>
    cases p2 with
    | none => simp [calc_spread] at h
    | some q2 =>
      by_cases h0 : q1 = 0 ∨ q2 = 0
      · simp [calc_spread, h0] at h
      · by_cases hgt : q1 > q2
        · rw [calc_spread, if_neg h0, if_pos hgt, Option.some.injEq] at h
          subst h
          refine ⟨le_of_lt hgt, ?_⟩
          intro r1 r2 hr1 hr2
          rw [Option.some.injEq] at hr1 hr2
          subst hr1; subst hr2
          refine ⟨?_, ?_, ?_, ?_⟩
          · simp [spreadOf, min_eq_right (le_of_lt hgt)]
          · simp [spreadOf, max_eq_left (le_of_lt hgt)]
          · intro hle
            exact absurd hgt (not_lt.mpr hle)
          · intro _
            exact ⟨rfl, rfl⟩
        · rw [calc_spread, if_neg h0, if_neg hgt, Option.some.injEq] at h
          subst h
          have hle : q1 ≤ q2 := not_lt.mp hgt
          refine ⟨hle, ?_⟩
          intro r1 r2 hr1 hr2
          rw [Option.some.injEq] at hr1 hr2
          subst hr1; subst hr2
          refine ⟨?_, ?_, ?_, ?_⟩
          · simp [spreadOf, min_eq_left hle]
          · simp [spreadOf, max_eq_right hle]
          · intro _
            exact ⟨rfl, rfl⟩
          · intro hlt
            exact absurd hlt (not_lt.mpr hle)

/-- C7 witness: the canonicalizing swap at the concrete pair (101, 100),
where the first argument is the more expensive venue. -/
theorem calc_spread_cheap_le_expensive_witness :
    (spreadOf FEES NOTIONAL 100 101 Dex.nado Dex.extended).cheap.2 ≤
      (spreadOf FEES NOTIONAL 100 101 Dex.nado Dex.extended).expensive.2 :=
  (calc_spread_cheap_le_expensive FEES NOTIONAL (some 101) (some 100)
    Dex.extended Dex.nado
    (spreadOf FEES NOTIONAL 100 101 Dex.nado Dex.extended)
    (by norm_num [calc_spread])).1

/-- C10 counterexample: calc_spread is not symmetric in its arguments — at
equal prices the argument order decides which venue is labeled cheap, so
swapping the argument pairs changes the result. -/
theorem calc_spread_symm_cex :
    calc_spread FEES NOTIONAL (some 100) (some 100)
      Dex.extended Dex.nado ≠
    calc_spread FEES NOTIONAL (some 100) (some 100)
      Dex.nado Dex.extended := by
  have h1 : calc_spread FEES NOTIONAL (some 100) (some 100)
      Dex.extended Dex.nado =
      some (spreadOf FEES NOTIONAL 100 100 Dex.extended Dex.nado) := by
    norm_num [calc_spread]
  have h2 : calc_spread FEES NOTIONAL (some 100) (some 100)
      Dex.nado Dex.extended =
      some (spreadOf FEES NOTIONAL 100 100 Dex.nado Dex.extended) := by
    norm_num [calc_spread]
  intro h
  rw [h1, h2, Option.some.injEq] at h
  have hv := congrArg (fun s : Spread Dex => s.cheap.1) h
  simp [spreadOf] at hv

/-- C10 amended: calc_spread is symmetric whenever the two prices differ,
and the produced-versus-rejected outcome is always symmetric; when both
prices are equal and valid, the two argument orders produce Spreads whose
numeric fields agree but whose cheap and expensive venue labels are
swapped. -/
theorem calc_spread_symm_amended {V : Type} (FEESf : V → ℚ) (N : ℚ) :
    (∀ (p1 p2 : ℚ) (d1 d2 : V), p1 ≠ p2 →
      calc_spread FEESf N (some p1) (some p2) d1 d2 =
        calc_spread FEESf N (some p2) (some p1) d2 d1) ∧
    (∀ (op1 op2 : Option ℚ) (d1 d2 : V),
      (calc_spread FEESf N op1 op2 d1 d2).isSome =
        (calc_spread FEESf N op2 op1 d2 d1).isSome) ∧
    (∀ (p : ℚ) (d1 d2 : V), p ≠ 0 →
      calc_spread FEESf N (some p) (some p) d1 d2 =
        some (spreadOf FEESf N p p d1 d2) ∧
      (spreadOf FEESf N p p d1 d2).cheap = (d1, p) ∧
      (spreadOf FEESf N p p d1 d2).expensive = (d2, p) ∧
      (spreadOf FEESf N p p d1 d2).net = (spreadOf FEESf N p p d2 d1).net ∧
      (spreadOf FEESf N p p d1 d2).gross =
        (spreadOf FEESf N p p d2 d1).gross ∧
      (spreadOf FEESf N p p d1 d2).fees =
        (spreadOf FEESf N p p d2 d1).fees) := by
  refine ⟨?_, ?_, ?_⟩
  · intro p1 p2 d1 d2 hne
    by_cases h0 : p1 = 0 ∨ p2 = 0
    · rw [calc_spread, if_pos h0, calc_spread, if_pos (Or.symm h0)]
    · have h0' : ¬ (p2 = 0 ∨ p1 = 0) := fun h => h0 (Or.symm h)
      rcases lt_or_gt_of_ne hne with hlt | hgt
      · rw [calc_spread, if_neg h0, if_neg (not_lt.mpr (le_of_lt hlt)),
          calc_spread, if_neg h0', if_pos hlt]
      · rw [calc_spread, if_neg h0, if_pos hgt,
          calc_spread, if_neg h0', if_neg (not_lt.mpr (le_of_lt hgt))]
  · intro op1 op2 d1 d2
    rcases hout : calc_spread FEESf N op1 op2 d1 d2 with _ | s
    · have : calc_spread FEESf N op2 op1 d2 d1 = none := by
        rw [calc_spread_eq_none_iff] at hout ⊢
        tauto
      rw [this]
    · rcases hout2 : calc_spread FEESf N op2 op1 d2 d1 with _ | s2
      · rw [calc_spread_eq_none_iff] at hout2
        have : calc_spread FEESf N op1 op2 d1 d2 = none := by
          rw [calc_spread_eq_none_iff]
          tauto
        rw [this] at hout
        exact absurd hout (by simp)
      · rfl
  · intro p d1 d2 hp
    have h0 : ¬ (p = 0 ∨ p = 0) := by
      push_neg
      exact ⟨hp, hp⟩
    refine ⟨by rw [calc_spread, if_neg h0, if_neg (lt_irrefl p)],
      rfl, rfl, ?_, ?_, ?_⟩ <;>
      simp only [spreadOf] <;> ring

/-- C10 amended witness: symmetry at the concrete distinct prices 100 and
101 on the two configured venues. -/
theorem calc_spread_symm_amended_witness :
    calc_spread FEES NOTIONAL (some 100) (some 101)
      Dex.extended Dex.nado =
    calc_spread FEES NOTIONAL (some 101) (some 100)
      Dex.nado Dex.extended :=
  (calc_spread_symm_amended FEES NOTIONAL).1 100 101 Dex.extended Dex.nado
    (by norm_num)

/-- Helper: the thresholded pair step succeeds exactly when the plain pair
step succeeds with a net meeting the threshold. -/
lemma pairSpreadTh_eq_some_iff {V : Type} [DecidableEq V] (FEESf : V → ℚ)
    (N th : ℚ) (a b : V × ℚ) (s : Spread V) :
    pairSpreadTh FEESf N th a b = some s ↔
      pairSpread FEESf N a b = some s ∧ th ≤ s.net := by
  cases h : pairSpread FEESf N a b with
  | none => simp [pairSpreadTh, h]
  | some t =>
    by_cases hth : th ≤ t.net
    · simp only [pairSpreadTh, h, if_pos hth, Option.some.injEq]
      constructor
      · rintro rfl
        exact ⟨rfl, hth⟩
      · rintro ⟨heq, _⟩
        exact heq
    · simp only [pairSpreadTh, h, if_neg hth, reduceCtorEq, false_iff,
        not_and, Option.some.injEq]
      rintro rfl
      exact hth

/-- Helper: membership in the thresholded spreads list of one snapshot. -/
lemma mem_spreadsFor {V : Type} [DecidableEq V] (FEESf : V → ℚ) (N th : ℚ)
    (pd : List (V × ℚ)) (s : Spread V) :
    s ∈ spreadsFor FEESf N th pd ↔
      s ∈ computeSpreads FEESf N pd ∧ th ≤ s.net := by
  simp only [spreadsFor, computeSpreads, List.mem_flatMap,
    List.mem_filterMap, pairSpreadTh_eq_some_iff]
  constructor
  · rintro ⟨a, ha, b, hb, hps, hth⟩
    exact ⟨⟨a, ha, b, hb, hps⟩, hth⟩
  · rintro ⟨⟨a, ha, b, hb, hps⟩, hth⟩
    exact ⟨a, ha, b, hb, hps, hth⟩

/-- Helper: membership in the accumulated qualifying list of a scan. -/
lemma mem_all_spreads {V : Type} [DecidableEq V] (FEESf : V → ℚ) (N th : ℚ)
    (snaps : List (List (V × ℚ))) (s : Spread V) :
    s ∈ all_spreads FEESf N th snaps ↔
      s ∈ all_candidates FEESf N snaps ∧ th ≤ s.net := by
  simp only [all_spreads, all_candidates, List.mem_flatMap, mem_spreadsFor]
  constructor
  · rintro ⟨pd, hpd, hs, hth⟩
    exact ⟨⟨pd, hpd, hs⟩, hth⟩
  · rintro ⟨⟨pd, hpd, hs⟩, hth⟩
    exact ⟨pd, hpd, hs, hth⟩

/-- C5: a candidate Spread qualifies in a scan exactly when its net meets
the caller threshold, and raising the threshold can only shrink or
preserve the qualifying set. -/
theorem scan_threshold_filter {V : Type} [DecidableEq V] (FEESf : V → ℚ)
    (N : ℚ) (snaps : List (List (V × ℚ))) (th : ℚ) (s : Spread V) :
    (s ∈ all_spreads FEESf N th snaps ↔
      s ∈ all_candidates FEESf N snaps ∧ th ≤ s.net) ∧
    ∀ th' : ℚ, th ≤ th' →
      s ∈ all_spreads FEESf N th' snaps →
      s ∈ all_spreads FEESf N th snaps := by
  refine ⟨mem_all_spreads FEESf N th snaps s, ?_⟩
  intro th' hle hmem
  obtain ⟨hc, hth'⟩ := (mem_all_spreads FEESf N th' snaps s).mp hmem
  exact (mem_all_spreads FEESf N th snaps s).mpr ⟨hc, le_trans hle hth'⟩

/-- Helper: the qualifying pair step evaluated on the self-pair of any
venue: the venueA is not venueB test skips it. -/
lemma pairTh_self (th : ℚ) (d : Dex) (p : ℚ) :
    pairSpreadTh FEES NOTIONAL th (d, p) (d, p) = none := by
  simp [pairSpreadTh, pairSpread]

/-- Helper: the qualifying pair step on the sample snapshot in price
order. -/
lemma pairTh_forward :
    pairSpreadTh FEES NOTIONAL 1 (Dex.extended, 100) (Dex.nado, 101) =
      some sampleSpread := by
  have hps : pairSpread FEES NOTIONAL (Dex.extended, 100) (Dex.nado, 101) =
      some sampleSpread := by
    norm_num [pairSpread, calc_spread, sampleSpread]
    intro h
    exact Dex.noConfusion h
  have hnet : (1:ℚ) ≤ sampleSpread.net := by
    norm_num [sampleSpread, spreadOf, FEES, NOTIONAL]
  simp only [pairSpreadTh, hps]
  rw [if_pos hnet]

/-- Helper: the qualifying pair step on the sample snapshot in reversed
order canonicalizes to the same Spread. -/
lemma pairTh_backward :
    pairSpreadTh FEES NOTIONAL 1 (Dex.nado, 101) (Dex.extended, 100) =
      some sampleSpread := by
  have hps : pairSpread FEES NOTIONAL (Dex.nado, 101) (Dex.extended, 100) =
      some sampleSpread := by
    norm_num [pairSpread, calc_spread, sampleSpread]
    intro h
    exact Dex.noConfusion h
  have hnet : (1:ℚ) ≤ sampleSpread.net := by
    norm_num [sampleSpread, spreadOf, FEES, NOTIONAL]
  simp only [pairSpreadTh, hps]
  rw [if_pos hnet]

/-- Helper: the full spreads list of the sample snapshot holds the same
Spread twice, once per ordered pair. -/
lemma two_venue_spreads_eval :
    spreadsFor FEES NOTIONAL 1 [(Dex.extended, 100), (Dex.nado, 101)] =
      [sampleSpread, sampleSpread] := by
  simp [spreadsFor, List.flatMap_cons, List.flatMap_nil, List.filterMap_cons,
    List.filterMap_nil, pairTh_self, pairTh_forward, pairTh_backward]

/-- Helper: the accumulated qualifying list of the one-coin sample scan. -/
lemma two_venue_all_spreads_eval :
    all_spreads FEES NOTIONAL 1 [[(Dex.extended, 100), (Dex.nado, 101)]] =
      [sampleSpread, sampleSpread] := by
  rw [all_spreads, List.flatMap_cons, List.flatMap_nil, List.append_nil,
    two_venue_spreads_eval]

/-- C5 witness: the filter relation evaluated on a one-coin scan with the
two configured venues at prices 100 and 101 and the default threshold. -/
theorem scan_threshold_filter_witness :
    sampleSpread ∈
      all_candidates FEES NOTIONAL
        [[(Dex.extended, 100), (Dex.nado, 101)]] ∧
    (1:ℚ) ≤ sampleSpread.net :=
  (scan_threshold_filter FEES NOTIONAL
    [[(Dex.extended, 100), (Dex.nado, 101)]] 1 sampleSpread).1.mp
    (by rw [two_venue_all_spreads_eval]; exact List.mem_cons_self _ _)

/-- Helper: pythonMax returns an element of the list that every element is
bounded by in net, and every element strictly before it in the list has
strictly smaller net (the first maximal element wins). -/
lemma pythonMax_first_max {V : Type} (a : Spread V) (l : List (Spread V)) :
    ∃ l1 l2, a :: l = l1 ++ pythonMax a l :: l2 ∧
      (∀ s ∈ l1, s.net < (pythonMax a l).net) ∧
      ∀ s ∈ a :: l, s.net ≤ (pythonMax a l).net := by
  induction l generalizing a with
  | nil =>
    refine ⟨[], [], rfl, by simp, ?_⟩
    intro s hs
    rw [List.mem_singleton] at hs
    subst hs
    exact le_refl _
  | cons x xs ih =>
    by_cases hx : a.net < x.net
    · have heq : pythonMax a (x :: xs) = pythonMax x xs := by
        simp [pythonMax, hx]
      obtain ⟨l1, l2, hdec, hlt, hle⟩ := ih x
      have hxm : x.net ≤ (pythonMax x xs).net :=
        hle x (List.mem_cons_self x xs)
      rw [heq]
      refine ⟨a :: l1, l2, ?_, ?_, ?_⟩
      · rw [List.cons_append, ← hdec]
      · intro s hs
        rcases List.mem_cons.mp hs with rfl | hs
        · exact lt_of_lt_of_le hx hxm
        · exact hlt s hs
      · intro s hs
        rcases List.mem_cons.mp hs with rfl | hs
        · exact le_of_lt (lt_of_lt_of_le hx hxm)
        · exact hle s hs
    · have heq : pythonMax a (x :: xs) = pythonMax a xs := by
        simp [pythonMax, hx]
      have hxa : x.net ≤ a.net := not_lt.mp hx
      obtain ⟨l1, l2, hdec, hlt, hle⟩ := ih a
      have ham : a.net ≤ (pythonMax a xs).net :=
        hle a (List.mem_cons_self a xs)
      rw [heq]
      cases l1 with
      | nil =>
        rw [List.nil_append, List.cons.injEq] at hdec
        obtain ⟨hma, _⟩ := hdec
        refine ⟨[], x :: xs, ?_, by simp, ?_⟩
        · rw [List.nil_append, ← hma]
        · intro s hs
          rcases List.mem_cons.mp hs with rfl | hs
          · exact ham
          · rcases List.mem_cons.mp hs with rfl | hs
            · exact le_trans hxa ham
            · exact hle s (List.mem_cons_of_mem a hs)
      | cons b l1t =>
        rw [List.cons_append, List.cons.injEq] at hdec
        obtain ⟨hab, hxs⟩ := hdec
        have hbm : b.net < (pythonMax a xs).net :=
          hlt b (List.mem_cons_self b l1t)
        have hanet : a.net = b.net := congrArg Spread.net hab
        have ham2 : a.net < (pythonMax a xs).net := by
          rw [hanet]
          exact hbm
        refine ⟨a :: x :: l1t, l2, ?_, ?_, ?_⟩
        · rw [List.cons_append, List.cons_append, ← hxs]
        · intro s hs
          rcases List.mem_cons.mp hs with rfl | hs
          · exact ham2
          · rcases List.mem_cons.mp hs with rfl | hs
            · exact lt_of_le_of_lt hxa ham2
            · exact hlt s (List.mem_cons_of_mem b hs)
        · intro s hs
          rcases List.mem_cons.mp hs with rfl | hs
          · exact ham
          · rcases List.mem_cons.mp hs with rfl | hs
            · exact le_trans hxa ham
            · exact hle s (List.mem_cons_of_mem a hs)

/-- C6: whenever the qualifying set of a scan is nonempty the scan reports
a best Spread; any reported best Spread is a qualifying Spread of maximal
net, and it is the first Spread of maximal net in encounter order. -/
theorem scan_best_selection {V : Type} [DecidableEq V] (FEESf : V → ℚ)
    (N th : ℚ) (snaps : List (List (V × ℚ))) :
    (all_spreads FEESf N th snaps ≠ [] →
      ∃ m d, scan_handler FEESf N th snaps = ScanOutcome.best m d) ∧
    ∀ m d, scan_handler FEESf N th snaps = ScanOutcome.best m d →
      m ∈ all_spreads FEESf N th snaps ∧
      (∀ s ∈ all_spreads FEESf N th snaps, s.net ≤ m.net) ∧
      ∃ l1 l2, all_spreads FEESf N th snaps = l1 ++ m :: l2 ∧
        ∀ s ∈ l1, s.net < m.net := by
  cases hall : all_spreads FEESf N th snaps with
  | nil =>
    constructor
    · intro hne
      exact absurd rfl hne
    · intro m d hm
      rw [scan_handler, hall] at hm
      exact absurd hm (by simp)
  | cons a rest =>
    constructor
    · intro _
      rw [scan_handler, hall]
      exact ⟨pythonMax a rest, rest.length + 1, rfl⟩
    · intro m d hm
      rw [scan_handler, hall] at hm
      rw [ScanOutcome.best.injEq] at hm
      obtain ⟨hmeq, _⟩ := hm
      subst hmeq
      obtain ⟨l1, l2, hdec, hlt, hle⟩ := pythonMax_first_max a rest
      refine ⟨?_, hle, l1, l2, hdec, hlt⟩
      rw [hdec]
      exact List.mem_append_right l1 (List.mem_cons_self _ l2)

/-- C6 witness: on a one-coin scan with prices 100 and 101 at the default
threshold, the reported best Spread belongs to the qualifying set. -/
theorem scan_best_selection_witness :
    sampleSpread ∈
      all_spreads FEES NOTIONAL 1
        [[(Dex.extended, 100), (Dex.nado, 101)]] :=
  ((scan_best_selection FEES NOTIONAL 1
      [[(Dex.extended, 100), (Dex.nado, 101)]]).2 sampleSpread 2
    (by
      rw [scan_handler, two_venue_all_spreads_eval]
      simp [pythonMax])).1

/-- Helper: a snapshot with at most one present venue produces an empty
spreads list: the double loop only visits the self-pair, which the
venueA is not venueB test skips. -/
lemma spreadsFor_short {V : Type} [DecidableEq V] (FEESf : V → ℚ)
    (N th : ℚ) (pd : List (V × ℚ)) (h : pd.length ≤ 1) :
    spreadsFor FEESf N th pd = [] := by
  cases pd with
  | nil => rfl
  | cons x t =>
    cases t with
    | nil => simp [spreadsFor, pairSpreadTh, pairSpread]
    | cons y t2 => simp at h

/-- C8: when every snapshot of a scan has fewer than two present venues,
the scan produces zero Spreads and completes with the no-qualifying-spread
report instead of an error; absent prices were already dropped when the
snapshot was built, so they only exclude pairs. -/
theorem scan_short_snapshots {V : Type} [DecidableEq V] (FEESf : V → ℚ)
    (N th : ℚ) (snaps : List (List (V × ℚ)))
    (h : ∀ pd ∈ snaps, pd.length ≤ 1) :
    all_spreads FEESf N th snaps = [] ∧
    scan_handler FEESf N th snaps = ScanOutcome.noSpread := by
  have hall : all_spreads FEESf N th snaps = [] := by
    induction snaps with
    | nil => rfl
    | cons pd t ih =>
      rw [all_spreads, List.flatMap_cons,
        spreadsFor_short FEESf N th pd (h pd (List.mem_cons_self pd t)),
        List.nil_append]
      exact ih fun q hq => h q (List.mem_cons_of_mem pd hq)
  exact ⟨hall, by rw [scan_handler, hall]⟩

/-- C8 witness: a scan over one single-venue snapshot and one empty
snapshot reports no spread. -/
theorem scan_short_snapshots_witness :
    scan_handler FEES NOTIONAL 1 [[(Dex.extended, 100)], []] =
      ScanOutcome.noSpread :=
  (scan_short_snapshots FEES NOTIONAL 1 [[(Dex.extended, 100)], []]
    (by simp)).2

/-- C1 counterexample: on the sample two-venue snapshot the double loop
keeps the same economically-identical Spread twice, once for each ordered
pair; duplicates are not removed before the list is returned, so the list
is not duplicate-free and its length is the ordered-pair count 2, not the
unordered-pair count C(2,2) = 1. -/
theorem scan_duplicate_spreads_cex :
    (spreadsFor FEES NOTIONAL 1
      [(Dex.extended, 100), (Dex.nado, 101)]).length = 2 ∧
    ¬ (spreadsFor FEES NOTIONAL 1
      [(Dex.extended, 100), (Dex.nado, 101)]).Nodup ∧
    Nat.choose 2 2 = 1 := by
  rw [two_venue_spreads_eval]
  refine ⟨rfl, ?_, rfl⟩
  simp

/-- Helper: an ordered pair of distinct venues with nonzero prices always
produces a Spread. -/
lemma pairSpread_isSome_of {V : Type} [DecidableEq V] (FEESf : V → ℚ)
    (N : ℚ) (a b : V × ℚ) (hne : a.1 ≠ b.1) (ha : a.2 ≠ 0) (hb : b.2 ≠ 0) :
    ∃ s, pairSpread FEESf N a b = some s := by
  rcases h : pairSpread FEESf N a b with _ | s
  · rw [pairSpread, if_neg hne, calc_spread_eq_none_iff] at h
    rcases h with h | h | h | h
    · exact absurd h (by simp)
    · exact absurd h (by simp)
    · rw [Option.some.injEq] at h
      exact absurd h ha
    · rw [Option.some.injEq] at h
      exact absurd h hb
  · exact ⟨s, rfl⟩

/-- Helper: the inner loop over the snapshot produces one Spread per venue
other than the outer venue, when all prices are nonzero. -/
lemma filterMap_pairSpread_length {V : Type} [DecidableEq V]
    (FEESf : V → ℚ) (N : ℚ) (a : V × ℚ) (ha : a.2 ≠ 0) :
    ∀ l : List (V × ℚ), (∀ x ∈ l, x.2 ≠ 0) →
      (l.filterMap fun b => pairSpread FEESf N a b).length =
        l.length - (l.map Prod.fst).count a.1 := by
  intro l
  induction l with
  | nil =>
    intro _
    rfl
  | cons b t ih =>
    intro hl
    have hcle : (t.map Prod.fst).count a.1 ≤ t.length := by
      calc (t.map Prod.fst).count a.1 ≤ (t.map Prod.fst).length :=
            List.count_le_length _ _
        _ = t.length := List.length_map t Prod.fst
    have iht := ih fun x hx => hl x (List.mem_cons_of_mem b hx)
    by_cases heq : a.1 = b.1
    · rw [List.filterMap_cons_none (by rw [pairSpread, if_pos heq]), iht]
      have hcnt : ((b :: t).map Prod.fst).count a.1 =
          (t.map Prod.fst).count a.1 + 1 := by
        simp [List.count_cons, heq]
      rw [hcnt, List.length_cons]
      omega
    · obtain ⟨s, hs⟩ := pairSpread_isSome_of FEESf N a b heq ha
        (hl b (List.mem_cons_self b t))
      rw [List.filterMap_cons_some hs, List.length_cons, iht]
      have hne' : b.1 ≠ a.1 := fun h => heq h.symm
      have hcnt : ((b :: t).map Prod.fst).count a.1 =
          (t.map Prod.fst).count a.1 := by
        simp [List.count_cons, hne']
      rw [hcnt, List.length_cons]
      omega

/-- Helper: summing a constant over a list multiplies it by the length. -/
lemma sum_map_const_nat {α : Type} (l : List α) (c : ℕ) :
    (l.map fun _ => c).sum = l.length * c := by
  induction l with
  | nil => simp
  | cons x t ih =>
    rw [List.map_cons, List.sum_cons, ih, List.length_cons, Nat.succ_mul,
      Nat.add_comm]

/-- C1 amended: the double loop over ordered venue pairs yields one Spread
per ordered pair of distinct present venues — V x (V-1) list entries, each
unordered pair contributing twice — and duplicates are not removed before
the list is returned. -/
theorem computeSpreads_length_ordered_pairs {V : Type} [DecidableEq V]
    (FEESf : V → ℚ) (N : ℚ) (pd : List (V × ℚ))
    (hkeys : (pd.map Prod.fst).Nodup) (hp : ∀ x ∈ pd, x.2 ≠ 0) :
    (computeSpreads FEESf N pd).length = pd.length * (pd.length - 1) := by
  rw [computeSpreads, List.length_flatMap]
  have hmap : List.map
      (List.length ∘ fun a => pd.filterMap fun b => pairSpread FEESf N a b)
      pd = pd.map fun _ => pd.length - 1 := by
    apply List.map_congr_left
    intro a ha
    show (pd.filterMap fun b => pairSpread FEESf N a b).length =
      pd.length - 1
    rw [filterMap_pairSpread_length FEESf N a (hp a ha) pd hp,
      List.count_eq_one_of_mem hkeys (List.mem_map.mpr ⟨a, ha, rfl⟩)]
  rw [hmap, sum_map_const_nat]

/-- C1 amended witness: the sample two-venue snapshot yields 2 x 1 = 2
candidate Spreads. -/
theorem computeSpreads_length_ordered_pairs_witness :
    (computeSpreads FEES NOTIONAL
      [(Dex.extended, 100), (Dex.nado, 101)]).length = 2 * (2 - 1) :=
  computeSpreads_length_ordered_pairs FEES NOTIONAL
    [(Dex.extended, 100), (Dex.nado, 101)] (by decide) (by norm_num)

/-- C9: in a fetch cycle, a venue whose request succeeded (status 200 with
a parsed price) appears in the snapshot with its price whatever happened
to the other venues, and a venue whose request failed in any way is merely
absent from the snapshot. -/
theorem fetch_failure_isolation (env : Dex → FetchOutcome) (d : Dex)
    (p : ℚ) :
    (env d = FetchOutcome.response 200 (some p) →
      (d, p) ∈ price_dict (fetch_coin_prices env)) ∧
    (fetch_price (env d) = none →
      ∀ q : ℚ, (d, q) ∉ price_dict (fetch_coin_prices env)) := by
  constructor
  · intro h
    have hd : fetch_price (env d) = some p := by
      rw [h]
      simp [fetch_price]
    have hdm : d ∈ DEXS := by
      cases d <;> simp [DEXS]
    apply List.mem_filterMap.mpr
    refine ⟨(d, fetch_price (env d)), ?_, ?_⟩
    · rw [fetch_coin_prices]
      exact List.mem_map.mpr ⟨d, hdm, rfl⟩
    · rw [hd]
      rfl
  · intro h q hmem
    obtain ⟨x, hx, hfx⟩ := List.mem_filterMap.mp hmem
    rw [fetch_coin_prices] at hx
    obtain ⟨d2, _, rfl⟩ := List.mem_map.mp hx
    rw [Option.map_eq_some'] at hfx
    obtain ⟨v, hv, hveq⟩ := hfx
    injection hveq with hd2 hq
    have hd2' : d2 = d := hd2
    have hv' : fetch_price (env d2) = some v := hv
    rw [hd2', h] at hv'
    exact Option.noConfusion hv'

/-- C9 witness: with extended succeeding at price 100 and nado failing with
a network error, the snapshot holds extended and omits nado. -/
theorem fetch_failure_isolation_witness :
    (Dex.extended, (100:ℚ)) ∈ price_dict (fetch_coin_prices envSample) ∧
    ∀ q : ℚ, (Dex.nado, q) ∉ price_dict (fetch_coin_prices envSample) :=
  ⟨(fetch_failure_isolation envSample Dex.extended 100).1 rfl,
   (fetch_failure_isolation envSample Dex.nado 100).2 rfl⟩

/-- C4 counterexample: the callback data profit_0 submits the non-positive
threshold 0, which the handler accepts and stores for the caller, so an
invalid (non-positive) preference update is not rejected. The built-in
int() is instantiated with its concrete sound restriction parseIntPy,
which agrees with int() on the digit string 0 (int applied to the string 0
returns 0). -/
theorem profit_callback_nonpositive_cex :
    profit_callback parseIntPy (fun _ => none) 7 "profit_0".data 7 =
      some 0 ∧
    ¬ ((0:ℤ) > 0) := by
  constructor
  · rfl
  · decide

/-- C4 amended: for every behavior of the built-in int() (the parameter
intParse), callback data outside the profit_ filter, or whose value part
int() rejects by raising ValueError, leaves the stored preferences
unchanged (the raise happens on the first handler line, before any
mutation); but every value int() does parse, positive or not, is stored
verbatim for the caller — positivity is not checked. -/
theorem profit_callback_parse_behavior (intParse : List Char → Option ℤ)
    (settings : ℕ → Option ℤ) (uid : ℕ) (data : List Char) :
    ("profit_".data.isPrefixOf data = false →
      profit_callback intParse settings uid data = settings) ∧
    (((pySplit '_' data)[1]?).bind intParse = none →
      profit_callback intParse settings uid data = settings) ∧
    ∀ v : ℤ, "profit_".data.isPrefixOf data = true →
      ((pySplit '_' data)[1]?).bind intParse = some v →
      profit_callback intParse settings uid data uid = some v := by
  refine ⟨?_, ?_, ?_⟩
  · intro h
    simp [profit_callback, h]
  · intro h
    by_cases hpre : "profit_".data.isPrefixOf data
    · rcases hidx : (pySplit '_' data)[1]? with _ | sfx
      · simp [profit_callback, hpre, hidx]
      · rw [hidx, Option.some_bind] at h
        simp [profit_callback, hpre, hidx, h]
    · simp [profit_callback, hpre]
  · intro v hpre hparse
    rcases hidx : (pySplit '_' data)[1]? with _ | sfx
    · rw [hidx, Option.none_bind] at hparse
      exact Option.noConfusion hparse
    · rw [hidx, Option.some_bind] at hparse
      simp [profit_callback, hpre, hidx, hparse]

/-- C4 amended witness: with int() instantiated at its concrete sound
restriction parseIntPy, the callback data profit_5 stores 5 for the
caller. -/
theorem profit_callback_parse_behavior_witness :
    profit_callback parseIntPy (fun _ => none) 7 "profit_5".data 7 =
      some 5 :=
  (profit_callback_parse_behavior parseIntPy (fun _ => none) 7
    "profit_5".data).2.2 5 (by decide) (by decide)

end DexSpreadBot
